import Mathlib

/-!
Shallow embedding of the `cpsat_dbap` repository (Discrete Berth Allocation
Problem) and verification of the frozen claims about it.

The embedding follows the Python sources:
* `src/cpsat_dbap/instance.py` — `ProcessingTime`, `HalfOpenInterval`,
  `DBAPInstance`, `parse_instance`;
* `src/cpsat_dbap/solution.py` — `Solution` and its derived metrics;
* `src/cpsat_dbap/solver.py` — `greedy_heuristic` and the engine-free
  prefix of `solve` (horizon computation, early infeasibility returns,
  decision-variable domains).

Python integers are modelled as `Int`; Python `list` as `List`; fallible
constructors (`__post_init__` raising `ValueError`) as `Except String`
builders.  A frozen dataclass whose `__post_init__` validates an invariant
is modelled as a structure carrying the invariant as a proof field, plus an
`Except`-returning constructor that mirrors the runtime check: every value
of the structure type that can exist corresponds to a Python object that
survived construction.
-/

namespace CpsatDbap

/-! ## ProcessingTime (instance.py) -/

/-- `ProcessingTime`: wraps an integer duration.  Negative values are the
invalid/forbidden state. -/
structure ProcessingTime where
  time : Int
deriving DecidableEq, Repr

/-- `ProcessingTime.is_valid`: non-negative stored time. -/
def ProcessingTime.is_valid (p : ProcessingTime) : Bool :=
  p.time ≥ 0

/-- `ProcessingTime.is_invalid`: negative stored time. -/
def ProcessingTime.is_invalid (p : ProcessingTime) : Bool :=
  p.time < 0

/-- Sentinel constant for invalid time (`INVALID_PROCESSING_TIME = ProcessingTime(-1)`). -/
def INVALID_PROCESSING_TIME : ProcessingTime := ⟨-1⟩

/-- `ProcessingTime.value()`: returns the raw time, raising `ValueError`
(modelled as `Except.error`) when invalid. -/
def ProcessingTime.value (p : ProcessingTime) : Except String Int :=
  if p.is_valid then Except.ok p.time
  else Except.error "Invalid ProcessingTime has no usable value"

/-- `ProcessingTime._combine`: apply `op` when both operands are valid,
otherwise produce the invalid sentinel. -/
def ProcessingTime.combine (p other : ProcessingTime) (op : Int → Int → Int) :
    ProcessingTime :=
  if p.is_valid && other.is_valid then ⟨op p.time other.time⟩
  else INVALID_PROCESSING_TIME

/-- `ProcessingTime.__add__` (the raw-`int` overload wraps its argument,
exactly as `_combine` does). -/
def ProcessingTime.add (p other : ProcessingTime) : ProcessingTime :=
  p.combine other (fun a b => a + b)

/-- `ProcessingTime.__sub__`. -/
def ProcessingTime.sub (p other : ProcessingTime) : ProcessingTime :=
  p.combine other (fun a b => a - b)

/-- `ProcessingTime.__mul__`. -/
def ProcessingTime.mul (p other : ProcessingTime) : ProcessingTime :=
  p.combine other (fun a b => a * b)

/-- `ProcessingTime.__floordiv__`: Python `//` is floor division
(`Int.fdiv`); invalid when either operand is invalid or the divisor is
zero. -/
def ProcessingTime.floordiv (p other : ProcessingTime) : ProcessingTime :=
  if p.is_valid && other.is_valid && other.time != 0 then ⟨Int.fdiv p.time other.time⟩
  else INVALID_PROCESSING_TIME

/-- The `int` overloads of the arithmetic operators wrap the raw integer
(`ProcessingTime(other)`) and defer to the `ProcessingTime` version. -/
def ProcessingTime.addInt (p : ProcessingTime) (k : Int) : ProcessingTime :=
  p.add ⟨k⟩

/-- `__sub__` with a raw-`int` right operand. -/
def ProcessingTime.subInt (p : ProcessingTime) (k : Int) : ProcessingTime :=
  p.sub ⟨k⟩

/-- `__mul__` with a raw-`int` right operand. -/
def ProcessingTime.mulInt (p : ProcessingTime) (k : Int) : ProcessingTime :=
  p.mul ⟨k⟩

/-- `__floordiv__` with a raw-`int` right operand. -/
def ProcessingTime.floordivInt (p : ProcessingTime) (k : Int) : ProcessingTime :=
  p.floordiv ⟨k⟩

/-! ## HalfOpenInterval (instance.py) -/

/-- `HalfOpenInterval`: a `[start, end)` window.  `__post_init__` raises
unless `end_exclusive ≥ start_inclusive`, so every constructed Python
object satisfies the invariant; we carry it as a proof field. -/
structure HalfOpenInterval where
  start_inclusive : Int
  end_exclusive : Int
  wf : start_inclusive ≤ end_exclusive

instance : Inhabited HalfOpenInterval := ⟨⟨0, 0, le_refl 0⟩⟩

/-- The fallible constructor (`__post_init__` check). -/
def mkHalfOpenInterval (s e : Int) : Except String HalfOpenInterval :=
  if h : e < s then Except.error "Interval end must be >= start"
  else Except.ok ⟨s, e, by omega⟩

/-- `HalfOpenInterval.__len__`: duration `end − start`. -/
def HalfOpenInterval.len (x : HalfOpenInterval) : Int :=
  x.end_exclusive - x.start_inclusive

/-- `HalfOpenInterval.is_empty`: zero duration. -/
def HalfOpenInterval.is_empty (x : HalfOpenInterval) : Bool :=
  x.len == 0

/-- `HalfOpenInterval.contains`. -/
def HalfOpenInterval.contains (x : HalfOpenInterval) (t : Int) : Bool :=
  x.start_inclusive ≤ t && t < x.end_exclusive

/-- `HalfOpenInterval.overlaps`. -/
def HalfOpenInterval.overlaps (x other : HalfOpenInterval) : Bool :=
  x.start_inclusive < other.end_exclusive && other.start_inclusive < x.end_exclusive

/-! ## Python `max` over a list

`max(l)` on a non-empty Python list.  On `[]` Python raises; the `0` result
for `[]` below is never relied upon: every use in the embedded code is
guarded by a non-emptiness check, exactly as in the source. -/

/-- Python `max` of a list of ints (left fold of binary `max` over a
non-empty list). -/
def pyMax : List Int → Int
  | [] => 0
  | x :: xs => xs.foldl max x

/-! ## Solution (solution.py) -/

/-- `Solution`: per-vessel berth/start/end plus the derived metrics that
`__post_init__` computes eagerly.  The `weights` and `arrival_times`
constructor arguments (`InitVar`s) are consumed by `mkSolution` below and
not stored, exactly as in the source. -/
structure Solution where
  vessel_berths : List Nat
  vessel_start_times : List Int
  vessel_end_times : List Int
  vessel_turnaround_times : List Int
  vessel_weighted_turnaround_times : List Int
  total_turnaround_time : Int
  total_weighted_turnaround_time : Int
deriving Repr

/-- `Solution.__init__` / `__post_init__`: validates vector lengths and
`end ≥ start` for every vessel (raising `ValueError` otherwise, modelled
as `Except.error`), then computes the derived metrics. -/
def mkSolutionN (n : Nat) (berths : List Nat) (starts ends weights arrivals : List Int) :
    Except String Solution :=
  if starts.length ≠ n then
    Except.error "Length mismatch: vessel_start_times does not match vessel count"
  else if ends.length ≠ n then
    Except.error "Length mismatch: vessel_end_times does not match vessel count"
  else if weights.length ≠ n then
    Except.error "Length mismatch: weights vector does not match vessel count"
  else if arrivals.length ≠ n then
    Except.error "Length mismatch: arrival_times vector does not match vessel count"
  else if (List.range n).any (fun i => ends.getD i 0 < starts.getD i 0) then
    Except.error "Temporal paradox: end time < start time"
  else
    Except.ok
      { vessel_berths := berths
        vessel_start_times := starts
        vessel_end_times := ends
        vessel_turnaround_times :=
          (List.range n).map (fun i => ends.getD i 0 - arrivals.getD i 0)
        vessel_weighted_turnaround_times :=
          (List.range n).map (fun i => (ends.getD i 0 - arrivals.getD i 0) * weights.getD i 0)
        total_turnaround_time :=
          ((List.range n).map (fun i => ends.getD i 0 - arrivals.getD i 0)).sum
        total_weighted_turnaround_time :=
          ((List.range n).map (fun i => (ends.getD i 0 - arrivals.getD i 0) * weights.getD i 0)).sum }

/-- `Solution.__init__` / `__post_init__` proper: `n = len(vessel_berths)`. -/
def mkSolution (berths : List Nat) (starts ends weights arrivals : List Int) :
    Except String Solution :=
  mkSolutionN berths.length berths starts ends weights arrivals

/-- `Solution.num_vessels`. -/
def Solution.num_vessels (s : Solution) : Nat :=
  s.vessel_berths.length

/-- `Solution.makespan`: `max(vessel_end_times)`, `0` when empty (the
source guards the empty case explicitly; `pyMax` folds the same way on the
non-empty case). -/
def Solution.makespan (s : Solution) : Int :=
  pyMax s.vessel_end_times

/-! ## DBAPInstance (instance.py) -/

/-- `DBAPInstance`: immutable problem data.  `__post_init__` validates all
array dimensions; the proofs of those checks are carried as fields, and
`mkDBAPInstance` below mirrors the fallible construction. -/
structure DBAPInstance where
  num_vessels : Nat
  num_berths : Nat
  vessel_weights : List Int
  arrival_times : List Int
  latest_departure_times : List Int
  processing_times : List (List ProcessingTime)
  berth_opening_times : List HalfOpenInterval
  wf_weights : vessel_weights.length = num_vessels
  wf_arrivals : arrival_times.length = num_vessels
  wf_latest : latest_departure_times.length = num_vessels
  wf_rows : processing_times.length = num_vessels
  wf_cols : ∀ row ∈ processing_times, row.length = num_berths
  wf_windows : berth_opening_times.length = num_berths

/-- `DBAPInstance.__post_init__`: the dimension checks, in source order. -/
def mkDBAPInstance (n m : Nat) (weights arrivals latest : List Int)
    (proc : List (List ProcessingTime)) (windows : List HalfOpenInterval) :
    Except String DBAPInstance :=
  if hw : weights.length ≠ n then Except.error "vessel_weights length mismatch"
  else if ha : arrivals.length ≠ n then Except.error "arrival_times length mismatch"
  else if hl : latest.length ≠ n then Except.error "latest_departure_times length mismatch"
  else if hp : proc.length ≠ n then Except.error "processing matrix rows mismatch"
  else if hc : proc.any (fun row => row.length != m) then
    Except.error "processing matrix columns mismatch"
  else if hb : windows.length ≠ m then Except.error "berth intervals length mismatch"
  else
    Except.ok
      { num_vessels := n
        num_berths := m
        vessel_weights := weights
        arrival_times := arrivals
        latest_departure_times := latest
        processing_times := proc
        berth_opening_times := windows
        wf_weights := not_not.mp hw
        wf_arrivals := not_not.mp ha
        wf_latest := not_not.mp hl
        wf_rows := not_not.mp hp
        wf_cols := by
          intro row hrow
          by_contra hne
          exact hc (List.any_eq_true.mpr ⟨row, hrow, by simpa using hne⟩)
        wf_windows := not_not.mp hb }

/-- `DBAPInstance.get_processing_time` (list indexing; in-range whenever
`v < num_vessels` and `b < num_berths` by the length invariants). -/
def DBAPInstance.get_processing_time (inst : DBAPInstance) (v b : Nat) : ProcessingTime :=
  (inst.processing_times.getD v []).getD b INVALID_PROCESSING_TIME

/-- `DBAPInstance.get_berth_interval`. -/
def DBAPInstance.get_berth_interval (inst : DBAPInstance) (b : Nat) : HalfOpenInterval :=
  inst.berth_opening_times.getD b default

/-! ## parse_instance (instance.py)

The token stream is modelled as a `List Int`: tokenisation and the
integer conversion of each whitespace-separated token are I/O plumbing
outside the core (a non-integer token raises before any of the logic
below runs).  `read_int` hitting the end of the stream is the `EOFError`
branch. -/

/-- `read_int`: next token or `EOFError`. -/
def readToken : List Int → Except String (Int × List Int)
  | [] => Except.error "Unexpected end of input while reading instance data"
  | t :: ts => Except.ok (t, ts)

/-- `[read_int() for _ in range(k)]`. -/
def readTokens : Nat → List Int → Except String (List Int × List Int)
  | 0, ts => Except.ok ([], ts)
  | k + 1, ts => do
    let (x, ts1) ← readToken ts
    let (xs, ts2) ← readTokens k ts1
    Except.ok (x :: xs, ts2)

/-- The per-token processing-time conversion inside `parse_instance`:
`h >= forbidden_threshold` becomes the invalid sentinel, anything else is
stored as `ProcessingTime(h)`. -/
def parseProcessingTime (thr h : Int) : ProcessingTime :=
  if h ≥ thr then INVALID_PROCESSING_TIME else ⟨h⟩

/-- The processing-matrix reading loop (`n` rows of `m` tokens, each token
converted by `parseProcessingTime`). -/
def readMatrix (thr : Int) : Nat → Nat → List Int →
    Except String (List (List ProcessingTime) × List Int)
  | 0, _, ts => Except.ok ([], ts)
  | n + 1, m, ts => do
    let (row, ts1) ← readTokens m ts
    let (rows, ts2) ← readMatrix thr n m ts1
    Except.ok (row.map (parseProcessingTime thr) :: rows, ts2)

/-- The berth-window validation loop: `openings[i] > endings[i]` raises. -/
def checkWindows : List Int → List Int → Except String Unit
  | [], [] => Except.ok ()
  | o :: os, e :: es =>
    if o > e then Except.error "Invalid berth interval: start > end"
    else checkWindows os es
  | _, _ => Except.error "berth window vector length mismatch"

/-- The deadline validation loop: `arrivals[i] > latest[i]` raises. -/
def checkDeadlines : List Int → List Int → Except String Unit
  | [], [] => Except.ok ()
  | a :: as, d :: ds =>
    if a > d then Except.error "Arrival exceeds latest departure"
    else checkDeadlines as ds
  | _, _ => Except.error "deadline vector length mismatch"

/-- The window-construction comprehension: closed input `[open, close]`
becomes the internal half-open `[open, close + 1)` (each construction runs
the `HalfOpenInterval.__post_init__` check). -/
def buildWindows : List Int → List Int → Except String (List HalfOpenInterval)
  | [], [] => Except.ok []
  | o :: os, e :: es => do
    let w ← mkHalfOpenInterval o (e + 1)
    let ws ← buildWindows os es
    Except.ok (w :: ws)
  | _, _ => Except.error "berth window vector length mismatch"

/-- `parse_instance`: reads `N M`, arrivals, openings, the processing
matrix, endings, deadlines; validates in source order; builds the
half-open windows and the `DBAPInstance` with default weights `1`. -/
def parse_instance (toks : List Int) (thr : Int) : Except String DBAPInstance := do
  let (n, ts0) ← readToken toks
  let (m, ts1) ← readToken ts0
  if n ≤ 0 then Except.error "Number of vessels must be positive"
  else if m ≤ 0 then Except.error "Number of berths must be positive"
  else do
    let (arrivals, ts2) ← readTokens n.toNat ts1
    let (openings, ts3) ← readTokens m.toNat ts2
    let (proc, ts4) ← readMatrix thr n.toNat m.toNat ts3
    let (endings, ts5) ← readTokens m.toNat ts4
    let _ ← checkWindows openings endings
    let (latest, _ts6) ← readTokens n.toNat ts5
    let _ ← checkDeadlines arrivals latest
    let windows ← buildWindows openings endings
    mkDBAPInstance n.toNat m.toNat (List.replicate n.toNat 1) arrivals latest proc windows

/-! ## greedy_heuristic (solver.py)

Python's `sorted` is a stable sort; any stable sort with the same ordering
predicate returns the same list, so the sort is embedded as a structurally
recursive stable insertion sort over the key
`(latest_departure_times[v], arrival_times[v])`. -/

/-- `a` sorts no later than `b` under the key `(deadline, arrival)`. -/
def vesselLE (inst : DBAPInstance) (a b : Nat) : Bool :=
  let da := inst.latest_departure_times.getD a 0
  let db := inst.latest_departure_times.getD b 0
  da < db || (da == db && inst.arrival_times.getD a 0 ≤ inst.arrival_times.getD b 0)

/-- Stable insertion: place `x` before the first element it sorts no later
than. -/
def insertStable (le : Nat → Nat → Bool) (x : Nat) : List Nat → List Nat
  | [] => [x]
  | y :: ys => if le x y then x :: y :: ys else y :: insertStable le x ys

/-- Stable insertion sort. -/
def insertionSort (le : Nat → Nat → Bool) : List Nat → List Nat
  | [] => []
  | x :: xs => insertStable le x (insertionSort le xs)

/-- `sorted_vessels`: vessel ids in ascending `(deadline, arrival)` order. -/
def sortedVessels (inst : DBAPInstance) : List Nat :=
  insertionSort (vesselLE inst) (List.range inst.num_vessels)

/-- The mutable state of the greedy loop: per-berth next-free cursors and
the three per-vessel result arrays (initialised to `0`). -/
structure GreedyState where
  berth_free_times : List Int
  v_berths : List Nat
  v_starts : List Int
  v_ends : List Int

/-- The inner berth scan of `greedy_heuristic`, one step of the fold:
skip invalid pairings, compute
`possible_start = max(arrival, berth_free_times[b], window.start)` and
`possible_end = possible_start + duration` (with `duration = pt.value()`,
which equals `pt.time` under the preceding validity guard), keep the
candidate only when it meets the berth closing time and the deadline and
strictly improves the best finish so far. -/
def scanBerth (inst : DBAPInstance) (v : Nat) (berthFree : List Int)
    (best : Option (Int × Int × Nat)) (b : Nat) : Option (Int × Int × Nat) :=
  let pt := inst.get_processing_time v b
  if pt.is_invalid then best
  else
    let duration := pt.time
    let w := inst.get_berth_interval b
    let possible_start :=
      max (inst.arrival_times.getD v 0) (max (berthFree.getD b 0) w.start_inclusive)
    let possible_end := possible_start + duration
    if possible_end ≤ w.end_exclusive &&
        possible_end ≤ inst.latest_departure_times.getD v 0 then
      match best with
      | none => some (possible_end, possible_start, b)
      | some (bf, bs, bb) =>
        if possible_end < bf then some (possible_end, possible_start, b)
        else some (bf, bs, bb)
    else best

/-- The full berth scan for one vessel: `none` plays `best_b_id == -1` /
`best_finish == inf`; a `some (finish, start, berth)` is the best
candidate found so far. -/
def bestCandidate (inst : DBAPInstance) (v : Nat) (berthFree : List Int) :
    Option (Int × Int × Nat) :=
  (List.range inst.num_berths).foldl (scanBerth inst v berthFree) none

/-- One iteration of the vessel loop: commit the best candidate and advance
the chosen berth's cursor, or fail. -/
def greedyStep (inst : DBAPInstance) (s : GreedyState) (v : Nat) :
    Option GreedyState :=
  match bestCandidate inst v s.berth_free_times with
  | none => none
  | some (fin, st, b) =>
    some { berth_free_times := s.berth_free_times.set b fin
           v_berths := s.v_berths.set v b
           v_starts := s.v_starts.set v st
           v_ends := s.v_ends.set v fin }

/-- The vessel loop of `greedy_heuristic`. -/
def greedyLoop (inst : DBAPInstance) : List Nat → GreedyState → Option GreedyState
  | [], s => some s
  | v :: rest, s =>
    match greedyStep inst s v with
    | none => none
    | some s1 => greedyLoop inst rest s1

/-- Initial per-berth free times: each berth's window start. -/
def initBerthFree (inst : DBAPInstance) : List Int :=
  (List.range inst.num_berths).map (fun b => (inst.get_berth_interval b).start_inclusive)

/-- `greedy_heuristic`: empty instance short-circuits to the empty
solution; otherwise run the loop over the sorted vessels and build the
`Solution` (the `except ValueError: return None` around the construction
is `Except.toOption`). -/
def greedy_heuristic (inst : DBAPInstance) : Option Solution :=
  if inst.num_vessels = 0 then (mkSolution [] [] [] [] []).toOption
  else
    match greedyLoop inst (sortedVessels inst)
        { berth_free_times := initBerthFree inst
          v_berths := List.replicate inst.num_vessels 0
          v_starts := List.replicate inst.num_vessels 0
          v_ends := List.replicate inst.num_vessels 0 } with
    | none => none
    | some s =>
      (mkSolution s.v_berths s.v_starts s.v_ends inst.vessel_weights inst.arrival_times).toOption

/-! ## solve (solver.py): engine-free prefix

Everything `solve` does before `cp_model.CpModel()` is pure: the greedy
warm-start call (whose result only feeds hints), the horizon computation,
and two early returns.  `solvePreModel` returns `some r` when `solve`
returns `r` before any model is built or the CP-SAT engine is invoked,
and `none` when execution proceeds to model construction. -/

/-- `max(instance.arrival_times)` (the `num_vessels = 0` early return
guards the empty case, as in the source). -/
def maxArrival (inst : DBAPInstance) : Int :=
  pyMax inst.arrival_times

/-- The horizon loop: per vessel, the maximum valid duration across
berths, summed; `none` when some vessel has no valid processing time
(the `return None` branch). -/
def sumMaxDurations : List (List ProcessingTime) → Option Int
  | [] => some 0
  | row :: rest =>
    let valid_pts := (row.filter (fun pt => pt.is_valid)).map (fun pt => pt.time)
    match valid_pts with
    | [] => none
    | _ :: _ =>
      match sumMaxDurations rest with
      | none => none
      | some s => some (pyMax valid_pts + s)

/-- `horizon = max(max_arrival + sum_max_durations, max(latest_departure_times))`,
or `none` when the horizon loop aborts. -/
def horizon (inst : DBAPInstance) : Option Int :=
  match sumMaxDurations inst.processing_times with
  | none => none
  | some s =>
    some (max (maxArrival inst + s) (pyMax inst.latest_departure_times))

/-- The engine-free prefix of `solve`. -/
def solvePreModel (inst : DBAPInstance) : Option (Option Solution) :=
  if inst.num_vessels = 0 then some (mkSolution [] [] [] [] []).toOption
  else
    match horizon inst with
    | none => some none
    | some _ => none

/-- The domain of the master start variable of vessel `v`:
`model.NewIntVar(arrival, deadline, ...)`. -/
def startVarDomain (inst : DBAPInstance) (v : Nat) : Int × Int :=
  (inst.arrival_times.getD v 0, inst.latest_departure_times.getD v 0)

/-- The domain of the master berth variable:
`model.NewIntVar(0, instance.num_berths - 1, ...)`. -/
def berthVarDomain (inst : DBAPInstance) : Int × Int :=
  (0, (inst.num_berths : Int) - 1)

/-! ## Specification predicates for the greedy-feasibility proof -/

/-- What the inner berth scan guarantees about any candidate it returns:
the berth index is in range, the pairing is valid, the start is the
computed earliest start, the finish is start plus duration, and the finish
meets both the berth closing time and the vessel deadline. -/
def CandidateSpec (inst : DBAPInstance) (v : Nat) (berthFree : List Int)
    (c : Int × Int × Nat) : Prop :=
  c.2.2 < inst.num_berths ∧
  (inst.get_processing_time v c.2.2).is_invalid = false ∧
  c.2.1 = max (inst.arrival_times.getD v 0)
      (max (berthFree.getD c.2.2 0) (inst.get_berth_interval c.2.2).start_inclusive) ∧
  c.1 = c.2.1 + (inst.get_processing_time v c.2.2).time ∧
  c.1 ≤ (inst.get_berth_interval c.2.2).end_exclusive ∧
  c.1 ≤ inst.latest_departure_times.getD v 0

/-- Invariant of the greedy vessel loop, relative to the set `done` of
already-scheduled vessels: array lengths are stable, every scheduled
vessel's assignment is feasible and finishes no later than its berth's
free-time cursor, and scheduled intervals on a common berth are pairwise
disjoint. -/
def LoopInv (inst : DBAPInstance) (done : List Nat) (s : GreedyState) : Prop :=
  s.berth_free_times.length = inst.num_berths ∧
  s.v_berths.length = inst.num_vessels ∧
  s.v_starts.length = inst.num_vessels ∧
  s.v_ends.length = inst.num_vessels ∧
  (∀ v ∈ done,
    v < inst.num_vessels ∧
    s.v_berths.getD v 0 < inst.num_berths ∧
    inst.arrival_times.getD v 0 ≤ s.v_starts.getD v 0 ∧
    s.v_starts.getD v 0 ≤ s.v_ends.getD v 0 ∧
    s.v_ends.getD v 0 ≤ (inst.get_berth_interval (s.v_berths.getD v 0)).end_exclusive ∧
    s.v_ends.getD v 0 ≤ inst.latest_departure_times.getD v 0 ∧
    s.v_ends.getD v 0 ≤ s.berth_free_times.getD (s.v_berths.getD v 0) 0) ∧
  (∀ v ∈ done, ∀ w ∈ done, v ≠ w → s.v_berths.getD v 0 = s.v_berths.getD w 0 →
    ¬(s.v_starts.getD v 0 < s.v_ends.getD w 0 ∧ s.v_starts.getD w 0 < s.v_ends.getD v 0))

/-! ## Concrete instances used by witnesses and counterexamples -/

/-- Scenario A of the spec: one vessel, one berth, `arrival = 0`,
`deadline = 100`, `duration = 10`, window `[0, 100)`. -/
def instA : DBAPInstance :=
  { num_vessels := 1
    num_berths := 1
    vessel_weights := [1]
    arrival_times := [0]
    latest_departure_times := [100]
    processing_times := [[⟨10⟩]]
    berth_opening_times := [⟨0, 100, by omega⟩]
    wf_weights := rfl
    wf_arrivals := rfl
    wf_latest := rfl
    wf_rows := rfl
    wf_cols := by intro row h; simp only [List.mem_singleton] at h; subst h; rfl
    wf_windows := rfl }

/-- The solution the greedy heuristic finds on `instA`. -/
def solA : Solution :=
  { vessel_berths := [0]
    vessel_start_times := [0]
    vessel_end_times := [10]
    vessel_turnaround_times := [10]
    vessel_weighted_turnaround_times := [10]
    total_turnaround_time := 10
    total_weighted_turnaround_time := 10 }

/-- Scenario C of the spec: a vessel whose only processing time is the
invalid sentinel, so it has no eligible berth. -/
def instNoBerth : DBAPInstance :=
  { num_vessels := 1
    num_berths := 1
    vessel_weights := [1]
    arrival_times := [0]
    latest_departure_times := [10]
    processing_times := [[⟨-1⟩]]
    berth_opening_times := [⟨0, 10, by omega⟩]
    wf_weights := rfl
    wf_arrivals := rfl
    wf_latest := rfl
    wf_rows := rfl
    wf_cols := by intro row h; simp only [List.mem_singleton] at h; subst h; rfl
    wf_windows := rfl }

/-- An instance whose single vessel has `arrival = 5 > 3 = deadline`. -/
def instLateArrival : DBAPInstance :=
  { num_vessels := 1
    num_berths := 1
    vessel_weights := [1]
    arrival_times := [5]
    latest_departure_times := [3]
    processing_times := [[⟨1⟩]]
    berth_opening_times := [⟨0, 10, by omega⟩]
    wf_weights := rfl
    wf_arrivals := rfl
    wf_latest := rfl
    wf_rows := rfl
    wf_cols := by intro row h; simp only [List.mem_singleton] at h; subst h; rfl
    wf_windows := rfl }

/-- The instance produced by parsing the token stream
`1 1 0 0 10 100 100` (one vessel, one berth, arrival `0`, opening `0`,
processing time `10`, closing `100`, deadline `100`). -/
def parsedA : DBAPInstance :=
  { num_vessels := 1
    num_berths := 1
    vessel_weights := [1]
    arrival_times := [0]
    latest_departure_times := [100]
    processing_times := [[⟨10⟩]]
    berth_opening_times := [⟨0, 101, by omega⟩]
    wf_weights := rfl
    wf_arrivals := rfl
    wf_latest := rfl
    wf_rows := rfl
    wf_cols := by intro row h; simp only [List.mem_singleton] at h; subst h; rfl
    wf_windows := rfl }

/-- The instance produced by parsing the token stream `1 1 0 0 -1 10 5`:
its single processing-time token `-1` is below the forbidden threshold,
yet the stored `ProcessingTime(-1)` is invalid. -/
def parsedNegative : DBAPInstance :=
  { num_vessels := 1
    num_berths := 1
    vessel_weights := [1]
    arrival_times := [0]
    latest_departure_times := [5]
    processing_times := [[⟨-1⟩]]
    berth_opening_times := [⟨0, 11, by omega⟩]
    wf_weights := rfl
    wf_arrivals := rfl
    wf_latest := rfl
    wf_rows := rfl
    wf_cols := by intro row h; simp only [List.mem_singleton] at h; subst h; rfl
    wf_windows := rfl }

/-! ## Helper lemmas: `pyMax` -/

theorem foldl_max_start_le (l : List Int) (a : Int) : a ≤ l.foldl max a := by
  induction l generalizing a with
  | nil => exact le_refl _
  | cons y ys ih =>
    simp only [List.foldl]
    exact le_trans (le_max_left a y) (ih (max a y))

theorem foldl_max_le_mem {l : List Int} {x : Int} (hx : x ∈ l) (a : Int) :
    x ≤ l.foldl max a := by
  induction l generalizing a with
  | nil => cases hx
  | cons y ys ih =>
    simp only [List.foldl]
    rcases List.mem_cons.mp hx with hx | hx
    · subst hx
      exact le_trans (le_max_right a x) (foldl_max_start_le ys (max a x))
    · exact ih hx (max a y)

theorem foldl_max_mem_or (l : List Int) (a : Int) :
    l.foldl max a = a ∨ l.foldl max a ∈ l := by
  induction l generalizing a with
  | nil => exact Or.inl rfl
  | cons y ys ih =>
    simp only [List.foldl]
    rcases ih (max a y) with h | h
    · rcases max_choice a y with hm | hm
      · exact Or.inl (h.trans hm)
      · exact Or.inr (by rw [h, hm]; exact List.mem_cons_self _ _)
    · exact Or.inr (List.mem_cons_of_mem _ h)

/-- Every member of a non-empty list is bounded by its `pyMax`. -/
theorem le_pyMax {l : List Int} {x : Int} (hx : x ∈ l) : x ≤ pyMax l := by
  cases l with
  | nil => cases hx
  | cons y ys =>
    rcases List.mem_cons.mp hx with hx | hx
    · subst hx
      exact foldl_max_start_le ys x
    · exact foldl_max_le_mem hx y

/-- `pyMax` of a non-empty list is one of its members. -/
theorem pyMax_mem {l : List Int} (hl : l ≠ []) : pyMax l ∈ l := by
  cases l with
  | nil => exact absurd rfl hl
  | cons y ys =>
    rcases foldl_max_mem_or ys y with h | h
    · rw [pyMax, h]; exact List.mem_cons_self _ _
    · exact List.mem_cons_of_mem _ h

/-! ## Helper lemmas: `List.getD` and `List.set` -/

theorem getD_set_self {α : Type} {l : List α} {i : Nat} (h : i < l.length) (a d : α) :
    (l.set i a).getD i d = a := by
  rw [List.getD_eq_getElem?_getD, List.getElem?_set_self h]
  rfl

theorem getD_set_ne {α : Type} {l : List α} {i j : Nat} (h : i ≠ j) (a d : α) :
    (l.set i a).getD j d = l.getD j d := by
  rw [List.getD_eq_getElem?_getD, List.getElem?_set_ne h, ← List.getD_eq_getElem?_getD]

theorem getD_eq_getElem {α : Type} {l : List α} {i : Nat} (h : i < l.length) (d : α) :
    l.getD i d = l[i] := by
  rw [List.getD_eq_getElem?_getD, List.getElem?_eq_getElem h]
  rfl

theorem getD_map_of_lt {α β : Type} {l : List α} {i : Nat} (h : i < l.length)
    (f : α → β) (d : β) (d' : α) :
    (l.map f).getD i d = f (l.getD i d') := by
  rw [getD_eq_getElem (by simpa using h), getD_eq_getElem h, List.getElem_map]

theorem getD_range_of_lt {n i : Nat} (h : i < n) (d : Nat) :
    (List.range n).getD i d = i := by
  rw [getD_eq_getElem (by simpa using h), List.getElem_range]

/-! ## Helper lemmas: `Except` -/

theorem exceptBind_ok {ε α β : Type} {x : Except ε α} {f : α → Except ε β} {c : β}
    (h : x >>= f = Except.ok c) : ∃ a, x = Except.ok a ∧ f a = Except.ok c := by
  cases x with
  | ok a => exact ⟨a, rfl, h⟩
  | error e => exact absurd h (by simp [Bind.bind, Except.bind])

/-! ## Helper lemmas: `mkSolution` inversion -/

theorem mkSolution_ok {berths : List Nat} {starts ends weights arrivals : List Int}
    {sol : Solution}
    (h : mkSolution berths starts ends weights arrivals = Except.ok sol) :
    sol.vessel_berths = berths ∧
    sol.vessel_start_times = starts ∧
    sol.vessel_end_times = ends ∧
    starts.length = berths.length ∧
    ends.length = berths.length ∧
    weights.length = berths.length ∧
    arrivals.length = berths.length ∧
    (∀ i, i < berths.length → starts.getD i 0 ≤ ends.getD i 0) ∧
    sol.vessel_turnaround_times =
      (List.range berths.length).map (fun i => ends.getD i 0 - arrivals.getD i 0) ∧
    sol.vessel_weighted_turnaround_times =
      (List.range berths.length).map
        (fun i => (ends.getD i 0 - arrivals.getD i 0) * weights.getD i 0) ∧
    sol.total_turnaround_time =
      ((List.range berths.length).map (fun i => ends.getD i 0 - arrivals.getD i 0)).sum ∧
    sol.total_weighted_turnaround_time =
      ((List.range berths.length).map
        (fun i => (ends.getD i 0 - arrivals.getD i 0) * weights.getD i 0)).sum := by
  unfold mkSolution mkSolutionN at h
  split at h
  · exact absurd h (by simp)
  · split at h
    · exact absurd h (by simp)
    · split at h
      · exact absurd h (by simp)
      · split at h
        · exact absurd h (by simp)
        · split at h
          · exact absurd h (by simp)
          · rename_i h1 h2 h3 h4 h5
            injection h with h
            subst h
            refine ⟨rfl, rfl, rfl, not_not.mp h1, not_not.mp h2, not_not.mp h3,
              not_not.mp h4, ?_, rfl, rfl, rfl, rfl⟩
            intro i hi
            by_contra hlt
            exact h5 (List.any_eq_true.mpr
              ⟨i, List.mem_range.mpr hi, by simpa using hlt⟩)

/-! ## Claim theorems -/

/-- C5: for all `ProcessingTime` values `a` and `b` (or `b` a raw
integer), if either operand is invalid then `a+b`, `a-b`, `a*b` and
`a//b` are all invalid; and for valid `a` and zero-valued valid `b`,
`a//b` is invalid. -/
theorem C5_invalid_propagation (a b : ProcessingTime) (k : Int) :
    (a.is_invalid = true ∨ b.is_invalid = true →
      a.add b = INVALID_PROCESSING_TIME ∧
      a.sub b = INVALID_PROCESSING_TIME ∧
      a.mul b = INVALID_PROCESSING_TIME ∧
      a.floordiv b = INVALID_PROCESSING_TIME) ∧
    (a.is_invalid = true ∨ (ProcessingTime.mk k).is_invalid = true →
      a.addInt k = INVALID_PROCESSING_TIME ∧
      a.subInt k = INVALID_PROCESSING_TIME ∧
      a.mulInt k = INVALID_PROCESSING_TIME ∧
      a.floordivInt k = INVALID_PROCESSING_TIME) ∧
    (a.is_valid = true → b.is_valid = true → b.time = 0 →
      a.floordiv b = INVALID_PROCESSING_TIME) := by
  refine ⟨?_, ?_, ?_⟩
  · intro h
    have hv : a.is_valid = false ∨ b.is_valid = false := by
      rcases h with h | h
      · exact Or.inl (by simp [ProcessingTime.is_valid, ProcessingTime.is_invalid] at h ⊢; omega)
      · exact Or.inr (by simp [ProcessingTime.is_valid, ProcessingTime.is_invalid] at h ⊢; omega)
    refine ⟨?_, ?_, ?_, ?_⟩ <;>
      simp only [ProcessingTime.add, ProcessingTime.sub, ProcessingTime.mul,
        ProcessingTime.floordiv, ProcessingTime.combine] <;>
      rcases hv with hv | hv <;> simp [hv]
  · intro h
    have hv : a.is_valid = false ∨ (ProcessingTime.mk k).is_valid = false := by
      rcases h with h | h
      · exact Or.inl (by simp [ProcessingTime.is_valid, ProcessingTime.is_invalid] at h ⊢; omega)
      · exact Or.inr (by simp [ProcessingTime.is_valid, ProcessingTime.is_invalid] at h ⊢; omega)
    refine ⟨?_, ?_, ?_, ?_⟩ <;>
      simp only [ProcessingTime.addInt, ProcessingTime.subInt, ProcessingTime.mulInt,
        ProcessingTime.floordivInt, ProcessingTime.add, ProcessingTime.sub,
        ProcessingTime.mul, ProcessingTime.floordiv, ProcessingTime.combine] <;>
      rcases hv with hv | hv <;> simp [hv]
  · intro ha hb hz
    simp [ProcessingTime.floordiv, hz]

/-- Witness for C5 at concrete inputs: an invalid left operand poisons
addition, and division of `4` by a valid zero is invalid. -/
theorem C5_invalid_propagation_witness :
    (ProcessingTime.mk (-1)).add ⟨3⟩ = INVALID_PROCESSING_TIME ∧
    (ProcessingTime.mk 4).floordiv ⟨0⟩ = INVALID_PROCESSING_TIME :=
  ⟨((C5_invalid_propagation ⟨-1⟩ ⟨3⟩ 0).1 (Or.inl (by decide))).1,
   (C5_invalid_propagation ⟨4⟩ ⟨0⟩ 0).2.2 (by decide) (by decide) rfl⟩

/-- C9: for every `HalfOpenInterval` `x`, `x.overlaps(x)` is true iff `x`
is non-empty, i.e. iff its duration `end_exclusive - start_inclusive` is
nonzero. -/
theorem C9_overlaps_self_iff_nonempty (x : HalfOpenInterval) :
    (x.overlaps x = true ↔ x.is_empty = false) ∧
    (x.is_empty = false ↔ x.end_exclusive - x.start_inclusive ≠ 0) := by
  have hwf := x.wf
  constructor
  · simp only [HalfOpenInterval.overlaps, HalfOpenInterval.is_empty, HalfOpenInterval.len,
      Bool.and_eq_true, decide_eq_true_eq, beq_eq_false_iff_ne, ne_eq]
    omega
  · simp only [HalfOpenInterval.is_empty, HalfOpenInterval.len, beq_eq_false_iff_ne, ne_eq]

/-- C10: a `ProcessingTime` is invalid exactly when its stored integer is
negative (not only when it equals the sentinel `ProcessingTime(-1)`:
`ProcessingTime(-2)` is invalid yet differs from the sentinel), and
subtracting a larger valid value from a smaller valid value yields an
invalid result on which `value()` raises. -/
theorem C10_invalid_iff_negative (a b : ProcessingTime) :
    (a.is_invalid = true ↔ a.time < 0) ∧
    ((ProcessingTime.mk (-2)).is_invalid = true ∧
      ProcessingTime.mk (-2) ≠ INVALID_PROCESSING_TIME) ∧
    (a.is_valid = true → b.is_valid = true → a.time < b.time →
      (a.sub b).is_invalid = true ∧
      (a.sub b).value = Except.error "Invalid ProcessingTime has no usable value") := by
  refine ⟨by simp [ProcessingTime.is_invalid], ⟨by decide, by decide⟩, ?_⟩
  intro ha hb hlt
  simp only [ProcessingTime.is_valid, decide_eq_true_eq] at ha hb
  have hsub : a.sub b = ⟨a.time - b.time⟩ := by
    simp [ProcessingTime.sub, ProcessingTime.combine, ProcessingTime.is_valid, ha, hb]
  rw [hsub]
  constructor
  · simp [ProcessingTime.is_invalid]; omega
  · simp only [ProcessingTime.value, ProcessingTime.is_valid]
    rw [if_neg (by simp; omega)]

/-- Witness for C10 at `a = ProcessingTime(2)`, `b = ProcessingTime(5)`. -/
theorem C10_invalid_iff_negative_witness :
    ((ProcessingTime.mk 2).sub ⟨5⟩).is_invalid = true ∧
    ((ProcessingTime.mk 2).sub ⟨5⟩).value =
      Except.error "Invalid ProcessingTime has no usable value" :=
  (C10_invalid_iff_negative ⟨2⟩ ⟨5⟩).2.2 (by decide) (by decide) (by decide)

/-- C7: for every successfully constructed `Solution` and every vessel
`v`: `end[v] ≥ start[v]` (construction errors otherwise, hence
construction can only succeed when every `end[v] ≥ start[v]`),
`turnaround[v] = end[v] − arrival[v]`,
`weightedTurnaround[v] = turnaround[v] × weight[v]`,
`total_weighted_turnaround_time = Σ weight[v]×turnaround[v]`, and
`makespan = max(end)`, `0` for an empty solution. -/
theorem C7_solution_metrics (berths : List Nat) (starts ends weights arrivals : List Int)
    (sol : Solution) (h : mkSolution berths starts ends weights arrivals = Except.ok sol) :
    (∀ v, v < berths.length →
      starts.getD v 0 ≤ ends.getD v 0 ∧
      sol.vessel_turnaround_times.getD v 0 = ends.getD v 0 - arrivals.getD v 0 ∧
      sol.vessel_weighted_turnaround_times.getD v 0 =
        (ends.getD v 0 - arrivals.getD v 0) * weights.getD v 0) ∧
    sol.total_weighted_turnaround_time =
      ((List.range berths.length).map
        (fun v => (ends.getD v 0 - arrivals.getD v 0) * weights.getD v 0)).sum ∧
    sol.vessel_end_times = ends ∧
    (∀ x ∈ ends, x ≤ sol.makespan) ∧
    (ends = [] → sol.makespan = 0) ∧
    (ends ≠ [] → sol.makespan ∈ ends) := by
  obtain ⟨hb, hs, he, _, _, _, _, hmono, hta, hwta, _, htotw⟩ := mkSolution_ok h
  refine ⟨?_, htotw, he, ?_, ?_, ?_⟩
  · intro v hv
    refine ⟨hmono v hv, ?_, ?_⟩
    · rw [hta, getD_map_of_lt (by simpa using hv) _ _ 0, getD_range_of_lt hv]
    · rw [hwta, getD_map_of_lt (by simpa using hv) _ _ 0, getD_range_of_lt hv]
  · intro x hx
    rw [Solution.makespan, he]
    exact le_pyMax hx
  · intro hnil
    rw [Solution.makespan, he, hnil]
    rfl
  · intro hnil
    rw [Solution.makespan, he]
    exact pyMax_mem hnil

/-- Witness for C7: the concrete solution of scenario A. -/
theorem C7_solution_metrics_witness :
    mkSolution [0] [0] [10] [1] [0] = Except.ok solA ∧
    (solA.vessel_turnaround_times.getD 0 0 = 10 - 0 ∧
      solA.total_weighted_turnaround_time = 10 ∧ solA.makespan ∈ [(10 : Int)]) := by
  have h : mkSolution [0] [0] [10] [1] [0] = Except.ok solA := rfl
  have hc := C7_solution_metrics [0] [0] [10] [1] [0] solA h
  exact ⟨h, (hc.1 0 (by decide)).2.1, by rw [hc.2.1]; rfl, hc.2.2.2.2.2 (by decide)⟩

/-- C2: in the model built by `solve`, each vessel's start variable has
domain exactly `[arrival[v], min(horizon, deadline[v])]` and the berth
variable has domain `[0, M-1]`, where the horizon is
`max(max_arrival + Σ_v max_valid_duration[v], max_deadline)`; the horizon
is never below any deadline, so `min(horizon, deadline[v]) = deadline[v]`
— which is the bound the code passes to `NewIntVar`. -/
theorem C2_variable_domains (inst : DBAPInstance) (H : Int)
    (hh : horizon inst = some H) (v : Nat) (hv : v < inst.num_vessels) :
    startVarDomain inst v =
      (inst.arrival_times.getD v 0, min H (inst.latest_departure_times.getD v 0)) ∧
    berthVarDomain inst = (0, (inst.num_berths : Int) - 1) ∧
    inst.latest_departure_times.getD v 0 ≤ H ∧
    ∃ S, sumMaxDurations inst.processing_times = some S ∧
      H = max (maxArrival inst + S) (pyMax inst.latest_departure_times) := by
  unfold horizon at hh
  cases hs : sumMaxDurations inst.processing_times with
  | none => rw [hs] at hh; exact absurd hh (by simp)
  | some S =>
    rw [hs] at hh
    injection hh with hh
    have hvlen : v < inst.latest_departure_times.length := by
      rw [inst.wf_latest]; exact hv
    have hmem : inst.latest_departure_times.getD v 0 ∈ inst.latest_departure_times := by
      rw [getD_eq_getElem hvlen]
      exact List.getElem_mem hvlen
    have hle : inst.latest_departure_times.getD v 0 ≤ H := by
      rw [← hh]
      exact le_trans (le_pyMax hmem) (le_max_right _ _)
    refine ⟨?_, rfl, hle, S, rfl, hh.symm⟩
    unfold startVarDomain
    rw [min_eq_right hle]

/-- Witness for C2: scenario A, whose horizon is
`max(0 + 10, 100) = 100`. -/
theorem C2_variable_domains_witness :
    horizon instA = some 100 ∧
    startVarDomain instA 0 = (0, min 100 100) ∧
    berthVarDomain instA = (0, 0) := by
  have h := C2_variable_domains instA 100 rfl 0 (by decide)
  exact ⟨rfl, h.1, h.2.1⟩

/-! ## Helper lemmas: the horizon loop on a vessel with no valid pairing -/

theorem sumMaxDurations_none {l : List (List ProcessingTime)} {row : List ProcessingTime}
    (hrow : row ∈ l) (hempty : row.filter (fun pt => pt.is_valid) = []) :
    sumMaxDurations l = none := by
  induction l with
  | nil => cases hrow
  | cons r rest ih =>
    rcases List.mem_cons.mp hrow with h | h
    · subst h
      simp only [sumMaxDurations, hempty, List.map_nil]
    · cases hf : (r.filter (fun pt => pt.is_valid)).map (fun pt => pt.time) with
      | nil => simp only [sumMaxDurations, hf]
      | cons x xs => simp only [sumMaxDurations, hf, ih h]

/-- C6: if some vessel has no valid processing time on any berth, `solve`
returns `None` — with no exception — before any CP-SAT model is built or
the engine is invoked (`solvePreModel` captures everything `solve` does
before `cp_model.CpModel()`). -/
theorem C6_no_eligible_berth_early_none (inst : DBAPInstance) (v : Nat)
    (hv : v < inst.num_vessels)
    (hall : ∀ b, b < inst.num_berths →
      (inst.get_processing_time v b).is_invalid = true) :
    solvePreModel inst = some none := by
  have hn : inst.num_vessels ≠ 0 := by omega
  have hvrow : v < inst.processing_times.length := by rw [inst.wf_rows]; exact hv
  have hrowmem : inst.processing_times.getD v [] ∈ inst.processing_times := by
    rw [getD_eq_getElem hvrow]
    exact List.getElem_mem hvrow
  have hrowlen : (inst.processing_times.getD v []).length = inst.num_berths :=
    inst.wf_cols _ hrowmem
  have hempty : (inst.processing_times.getD v []).filter (fun pt => pt.is_valid) = [] := by
    rw [List.filter_eq_nil_iff]
    intro pt hpt
    obtain ⟨b, hb, hpt⟩ := List.mem_iff_getElem.mp hpt
    have hbm : b < inst.num_berths := by rw [← hrowlen]; exact hb
    have := hall b hbm
    rw [DBAPInstance.get_processing_time, getD_eq_getElem hb] at this
    rw [hpt] at this
    simp only [ProcessingTime.is_invalid, decide_eq_true_eq] at this
    simp only [ProcessingTime.is_valid, decide_eq_true_eq]
    omega
  have hsum : sumMaxDurations inst.processing_times = none :=
    sumMaxDurations_none hrowmem hempty
  unfold solvePreModel
  rw [if_neg hn]
  unfold horizon
  rw [hsum]

/-- Witness for C6: scenario C (`instNoBerth`), whose only vessel has only
the invalid sentinel. -/
theorem C6_no_eligible_berth_early_none_witness :
    solvePreModel instNoBerth = some none :=
  C6_no_eligible_berth_early_none instNoBerth 0 (by decide)
    (by
      intro b hb
      match b, hb with
      | 0, _ => decide)

/-! ## Helper lemmas: parsing -/

theorem ok_bind {ε α β : Type} (a : α) (f : α → Except ε β) :
    (Except.ok a : Except ε α) >>= f = f a := rfl

theorem readTokens_append (l rest : List Int) :
    readTokens l.length (l ++ rest) = Except.ok (l, rest) := by
  induction l with
  | nil => rfl
  | cons x xs ih =>
    simp only [List.length_cons, List.cons_append, readTokens, readToken, ok_bind, ih]

theorem readTokens_of_len {k : Nat} {l : List Int} (hk : l.length = k) (rest : List Int) :
    readTokens k (l ++ rest) = Except.ok (l, rest) := by
  subst hk
  exact readTokens_append l rest

theorem readMatrix_of_len {thr : Int} {n m : Nat} {rows : List (List Int)}
    (hn : rows.length = n) (hm : ∀ row ∈ rows, row.length = m) (rest : List Int) :
    readMatrix thr n m (rows.flatten ++ rest) =
      Except.ok (rows.map (fun r => r.map (parseProcessingTime thr)), rest) := by
  subst hn
  induction rows with
  | nil => rfl
  | cons r rs ih =>
    have hr : r.length = m := hm r (List.mem_cons_self _ _)
    have hrs : ∀ row ∈ rs, row.length = m := fun row hrow => hm row (List.mem_cons_of_mem _ hrow)
    simp only [List.length_cons, List.flatten_cons, List.map_cons, readMatrix,
      List.append_assoc]
    rw [readTokens_of_len hr, ok_bind, ih hrs, ok_bind]

theorem checkDeadlines_ok {as ds : List Int} (h : checkDeadlines as ds = Except.ok ()) :
    ∀ i, i < as.length → as.getD i 0 ≤ ds.getD i 0 := by
  induction as generalizing ds with
  | nil => intro i hi; simp at hi
  | cons a as ih =>
    cases ds with
    | nil => exact absurd h (by simp [checkDeadlines])
    | cons d ds =>
      unfold checkDeadlines at h
      split at h
      · exact absurd h (by simp)
      · rename_i hle
        intro i hi
        cases i with
        | zero => simpa using le_of_not_lt (by simpa using hle)
        | succ j => exact ih h j (by simpa using hi)

theorem mkHalfOpenInterval_ok {s e : Int} {w : HalfOpenInterval}
    (h : mkHalfOpenInterval s e = Except.ok w) :
    w.start_inclusive = s ∧ w.end_exclusive = e := by
  unfold mkHalfOpenInterval at h
  split at h
  · exact absurd h (by simp)
  · injection h with h
    subst h
    exact ⟨rfl, rfl⟩

theorem buildWindows_ok {os es : List Int} {ws : List HalfOpenInterval}
    (h : buildWindows os es = Except.ok ws) :
    ws.length = os.length ∧
    ∀ i, i < os.length →
      (ws.getD i default).start_inclusive = os.getD i 0 ∧
      (ws.getD i default).end_exclusive = es.getD i 0 + 1 := by
  induction os generalizing es ws with
  | nil =>
    cases es with
    | nil =>
      injection h with h
      subst h
      exact ⟨rfl, by intro i hi; simp at hi⟩
    | cons e es => exact absurd h (by simp [buildWindows])
  | cons o os ih =>
    cases es with
    | nil => exact absurd h (by simp [buildWindows])
    | cons e es =>
      unfold buildWindows at h
      obtain ⟨w, hw, h⟩ := exceptBind_ok h
      obtain ⟨ws', hws', h⟩ := exceptBind_ok h
      injection h with h
      subst h
      obtain ⟨hwstart, hwend⟩ := mkHalfOpenInterval_ok hw
      obtain ⟨hlen, hspec⟩ := ih hws'
      refine ⟨by simpa using hlen, ?_⟩
      intro i hi
      cases i with
      | zero => exact ⟨hwstart, hwend⟩
      | succ j => exact hspec j (by simpa using hi)

theorem mkDBAPInstance_ok {n m : Nat} {weights arrivals latest : List Int}
    {proc : List (List ProcessingTime)} {windows : List HalfOpenInterval}
    {inst : DBAPInstance}
    (h : mkDBAPInstance n m weights arrivals latest proc windows = Except.ok inst) :
    inst.num_vessels = n ∧ inst.num_berths = m ∧
    inst.vessel_weights = weights ∧ inst.arrival_times = arrivals ∧
    inst.latest_departure_times = latest ∧ inst.processing_times = proc ∧
    inst.berth_opening_times = windows := by
  unfold mkDBAPInstance at h
  split at h
  · exact absurd h (by simp)
  split at h
  · exact absurd h (by simp)
  split at h
  · exact absurd h (by simp)
  split at h
  · exact absurd h (by simp)
  split at h
  · exact absurd h (by simp)
  split at h
  · exact absurd h (by simp)
  injection h with h
  subst h
  exact ⟨rfl, rfl, rfl, rfl, rfl, rfl, rfl⟩

/-- Inversion of a successful `parse_instance` run on a token stream given
in its six-section decomposition. -/
theorem parse_decomposed {n m : Int} {arr op : List Int} {mat : List (List Int)}
    {en lat rest : List Int} {thr : Int} {inst : DBAPInstance}
    (harr : arr.length = n.toNat) (hop : op.length = m.toNat)
    (hmat : mat.length = n.toNat) (hmatr : ∀ row ∈ mat, row.length = m.toNat)
    (hen : en.length = m.toNat) (hlat : lat.length = n.toNat)
    (h : parse_instance (n :: m :: (arr ++ (op ++ (mat.flatten ++ (en ++ (lat ++ rest)))))) thr
        = Except.ok inst) :
    inst.num_vessels = n.toNat ∧ inst.num_berths = m.toNat ∧
    inst.vessel_weights = List.replicate n.toNat 1 ∧
    inst.arrival_times = arr ∧ inst.latest_departure_times = lat ∧
    inst.processing_times = mat.map (fun r => r.map (parseProcessingTime thr)) ∧
    buildWindows op en = Except.ok inst.berth_opening_times := by
  unfold parse_instance at h
  simp only [readToken, ok_bind] at h
  split at h
  · exact absurd h (by simp)
  split at h
  · exact absurd h (by simp)
  rw [readTokens_of_len harr, ok_bind, readTokens_of_len hop, ok_bind,
    readMatrix_of_len hmat hmatr, ok_bind, readTokens_of_len hen, ok_bind] at h
  obtain ⟨u1, hcw, h⟩ := exceptBind_ok h
  rw [readTokens_of_len hlat, ok_bind] at h
  obtain ⟨u2, hcd, h⟩ := exceptBind_ok h
  obtain ⟨ws, hbw, h⟩ := exceptBind_ok h
  obtain ⟨hnv, hnb, hwts, harrs, hlats, hproc, hwin⟩ := mkDBAPInstance_ok h
  exact ⟨hnv, hnb, hwts, harrs, hlats, hproc, by rw [hwin]; exact hbw⟩

/-- Inversion of a successful `parse_instance` run on an arbitrary token
stream: the arrival/deadline validation must have passed. -/
theorem parse_ok_deadlines {toks : List Int} {thr : Int} {inst : DBAPInstance}
    (h : parse_instance toks thr = Except.ok inst) :
    ∀ v, v < inst.num_vessels →
      inst.arrival_times.getD v 0 ≤ inst.latest_departure_times.getD v 0 := by
  unfold parse_instance at h
  obtain ⟨⟨n, ts0⟩, h0, h⟩ := exceptBind_ok h
  obtain ⟨⟨m, ts1⟩, h1, h⟩ := exceptBind_ok h
  dsimp only at h
  split at h
  · exact absurd h (by simp)
  split at h
  · exact absurd h (by simp)
  obtain ⟨⟨arr, ts2⟩, h2, h⟩ := exceptBind_ok h
  obtain ⟨⟨op, ts3⟩, h3, h⟩ := exceptBind_ok h
  obtain ⟨⟨proc, ts4⟩, h4, h⟩ := exceptBind_ok h
  obtain ⟨⟨en, ts5⟩, h5, h⟩ := exceptBind_ok h
  dsimp only at h
  obtain ⟨u1, hcw, h⟩ := exceptBind_ok h
  obtain ⟨⟨lat, ts6⟩, h6, h⟩ := exceptBind_ok h
  dsimp only at h
  obtain ⟨u2, hcd, h⟩ := exceptBind_ok h
  obtain ⟨ws, hbw, h⟩ := exceptBind_ok h
  obtain ⟨hnv, hnb, hwts, harrs, hlats, hproc, hwin⟩ := mkDBAPInstance_ok h
  intro v hv
  rw [harrs, hlats]
  apply checkDeadlines_ok (by cases u2; exact hcd)
  rw [← harrs, inst.wf_arrivals]
  exact hv

/-- C3, counterexample to the claim as stated: a `DBAPInstance` whose only
vessel has `arrival = 5 > 3 = deadline` is constructed successfully —
`DBAPInstance.__post_init__` checks array dimensions only, so construction
does not fail on an arrival past the deadline. -/
theorem C3_direct_construction_counterexample :
    mkDBAPInstance 1 1 [1] [5] [3] [[⟨1⟩]] [⟨0, 10, by omega⟩]
        = Except.ok instLateArrival ∧
    instLateArrival.arrival_times.getD 0 0 > instLateArrival.latest_departure_times.getD 0 0 :=
  ⟨rfl, by decide⟩

/-- C3, amended: an inverted berth window fails at `HalfOpenInterval`
construction (so every instance's windows satisfy `start ≤ end`), while
the `arrival ≤ deadline` check is performed by `parse_instance`, not by
`DBAPInstance` construction: every successfully parsed instance satisfies
it for every vessel. -/
theorem C3_construction_invariants :
    (∀ s e : Int, e < s →
      mkHalfOpenInterval s e = Except.error "Interval end must be >= start") ∧
    (∀ w : HalfOpenInterval, w.start_inclusive ≤ w.end_exclusive) ∧
    (∀ (toks : List Int) (thr : Int) (inst : DBAPInstance),
      parse_instance toks thr = Except.ok inst →
      ∀ v, v < inst.num_vessels →
        inst.arrival_times.getD v 0 ≤ inst.latest_departure_times.getD v 0) := by
  refine ⟨?_, fun w => w.wf, ?_⟩
  · intro s e hlt
    unfold mkHalfOpenInterval
    rw [dif_pos hlt]
  · intro toks thr inst h
    exact parse_ok_deadlines h

/-- Witness for C3 (amended): a concrete inverted window is rejected, and
the concretely parsed `parsedA` satisfies `arrival ≤ deadline`. -/
theorem C3_construction_invariants_witness :
    mkHalfOpenInterval 5 3 = Except.error "Interval end must be >= start" ∧
    parsedA.arrival_times.getD 0 0 ≤ parsedA.latest_departure_times.getD 0 0 :=
  ⟨C3_construction_invariants.1 5 3 (by decide),
   C3_construction_invariants.2.2 [1, 1, 0, 0, 10, 100, 100] 99999 parsedA rfl 0 (by decide)⟩

/-- C4, counterexample to the claim as stated: the token `-1` is below the
forbidden threshold `99999`, yet the `ProcessingTime` stored for it by
`parse_instance` is not valid. -/
theorem C4_below_threshold_counterexample :
    parse_instance [1, 1, 0, 0, -1, 10, 5] 99999 = Except.ok parsedNegative ∧
    (-1 : Int) < 99999 ∧
    (parsedNegative.get_processing_time 0 0).is_valid = false :=
  ⟨rfl, by decide, by decide⟩

/-- C4, amended: every processing-time token `h` read by `parse_instance`
is stored as the invalid sentinel when `h ≥ threshold` and as
`ProcessingTime(h)` otherwise — which is a valid duration iff `h ≥ 0`
(negative below-threshold tokens are stored invalid). -/
theorem C4_processing_threshold {n m : Int} {arr op : List Int} {mat : List (List Int)}
    {en lat rest : List Int} {thr : Int} {inst : DBAPInstance}
    (harr : arr.length = n.toNat) (hop : op.length = m.toNat)
    (hmat : mat.length = n.toNat) (hmatr : ∀ row ∈ mat, row.length = m.toNat)
    (hen : en.length = m.toNat) (hlat : lat.length = n.toNat)
    (h : parse_instance (n :: m :: (arr ++ (op ++ (mat.flatten ++ (en ++ (lat ++ rest)))))) thr
        = Except.ok inst) :
    ∀ v, v < n.toNat → ∀ b, b < m.toNat →
      inst.get_processing_time v b = parseProcessingTime thr ((mat.getD v []).getD b 0) ∧
      ((mat.getD v []).getD b 0 ≥ thr →
        inst.get_processing_time v b = INVALID_PROCESSING_TIME) ∧
      ((mat.getD v []).getD b 0 < thr →
        inst.get_processing_time v b = ⟨(mat.getD v []).getD b 0⟩ ∧
        ((inst.get_processing_time v b).is_valid = true ↔ 0 ≤ (mat.getD v []).getD b 0)) := by
  obtain ⟨hnv, hnb, hwts, harrs, hlats, hproc, hwin⟩ :=
    parse_decomposed harr hop hmat hmatr hen hlat h
  intro v hv b hb
  have hvm : v < mat.length := by rw [hmat]; exact hv
  have hrowmem : mat.getD v [] ∈ mat := by
    rw [getD_eq_getElem hvm]
    exact List.getElem_mem hvm
  have hbrow : b < (mat.getD v []).length := by rw [hmatr _ hrowmem]; exact hb
  have hpt : inst.get_processing_time v b
      = parseProcessingTime thr ((mat.getD v []).getD b 0) := by
    rw [DBAPInstance.get_processing_time, hproc,
      getD_map_of_lt hvm _ _ [], getD_map_of_lt hbrow _ _ 0]
  refine ⟨hpt, ?_, ?_⟩
  · intro hge
    rw [hpt, parseProcessingTime, if_pos hge]
  · intro hlt
    rw [hpt, parseProcessingTime, if_neg (not_le.mpr hlt)]
    refine ⟨rfl, ?_⟩
    simp [ProcessingTime.is_valid]

/-- Witness for C4 (amended): the concrete parse of `1 1 0 0 10 100 100`
stores `ProcessingTime(10)`, a valid duration, for its below-threshold
token `10`. -/
theorem C4_processing_threshold_witness :
    parsedA.get_processing_time 0 0 = ⟨10⟩ ∧
    (parsedA.get_processing_time 0 0).is_valid = true := by
  have h := @C4_processing_threshold 1 1 [0] [0] [[10]] [100] [100] [] 99999 parsedA
    rfl rfl rfl
    (by intro row hrow; simp only [List.mem_singleton] at hrow; subst hrow; rfl)
    rfl rfl rfl 0 (by decide) 0 (by decide)
  exact ⟨(h.2.2 (by decide)).1, ((h.2.2 (by decide)).2).mpr (by decide)⟩

/-- C8: every successfully parsed instance stores, for berth `i`, the
half-open window `[open_i, close_i + 1)`, so re-serialising to closed form
recovers the original bounds: `start_inclusive` is the original opening
token and `end_exclusive - 1` the original closing token. -/
theorem C8_window_round_trip {n m : Int} {arr op : List Int} {mat : List (List Int)}
    {en lat rest : List Int} {thr : Int} {inst : DBAPInstance}
    (harr : arr.length = n.toNat) (hop : op.length = m.toNat)
    (hmat : mat.length = n.toNat) (hmatr : ∀ row ∈ mat, row.length = m.toNat)
    (hen : en.length = m.toNat) (hlat : lat.length = n.toNat)
    (h : parse_instance (n :: m :: (arr ++ (op ++ (mat.flatten ++ (en ++ (lat ++ rest)))))) thr
        = Except.ok inst) :
    inst.num_berths = m.toNat ∧
    ∀ b, b < m.toNat →
      (inst.get_berth_interval b).start_inclusive = op.getD b 0 ∧
      (inst.get_berth_interval b).end_exclusive = en.getD b 0 + 1 ∧
      (inst.get_berth_interval b).end_exclusive - 1 = en.getD b 0 := by
  obtain ⟨hnv, hnb, hwts, harrs, hlats, hproc, hwin⟩ :=
    parse_decomposed harr hop hmat hmatr hen hlat h
  obtain ⟨hlen, hspec⟩ := buildWindows_ok hwin
  refine ⟨hnb, ?_⟩
  intro b hb
  have hbop : b < op.length := by rw [hop]; exact hb
  obtain ⟨hs, he⟩ := hspec b hbop
  simp only [DBAPInstance.get_berth_interval]
  exact ⟨hs, he, by rw [he]; omega⟩

/-- Witness for C8: the parse of `1 1 0 0 10 100 100` stores the window
`[0, 101)` for closing token `100`. -/
theorem C8_window_round_trip_witness :
    (parsedA.get_berth_interval 0).start_inclusive = 0 ∧
    (parsedA.get_berth_interval 0).end_exclusive - 1 = 100 := by
  have h := @C8_window_round_trip 1 1 [0] [0] [[10]] [100] [100] [] 99999 parsedA
    rfl rfl rfl
    (by intro row hrow; simp only [List.mem_singleton] at hrow; subst hrow; rfl)
    rfl rfl rfl
  exact ⟨(h.2 0 (by decide)).1, (h.2 0 (by decide)).2.2⟩

/-! ## Helper lemmas: the greedy heuristic -/

theorem insertStable_perm (le : Nat → Nat → Bool) (x : Nat) (l : List Nat) :
    (insertStable le x l).Perm (x :: l) := by
  induction l with
  | nil => exact List.Perm.refl _
  | cons y ys ih =>
    unfold insertStable
    split
    · exact List.Perm.refl _
    · exact (List.Perm.cons y ih).trans (List.Perm.swap x y ys)

theorem insertionSort_perm (le : Nat → Nat → Bool) (l : List Nat) :
    (insertionSort le l).Perm l := by
  induction l with
  | nil => exact List.Perm.refl _
  | cons x xs ih =>
    exact (insertStable_perm le x _).trans (List.Perm.cons x ih)

theorem sortedVessels_perm (inst : DBAPInstance) :
    (sortedVessels inst).Perm (List.range inst.num_vessels) :=
  insertionSort_perm _ _

theorem scanBerth_spec {inst : DBAPInstance} {v : Nat} {berthFree : List Int}
    {best : Option (Int × Int × Nat)} {b : Nat} {c : Int × Int × Nat}
    (hb : b < inst.num_berths)
    (hbest : ∀ c0, best = some c0 → CandidateSpec inst v berthFree c0)
    (h : scanBerth inst v berthFree best b = some c) :
    CandidateSpec inst v berthFree c := by
  cases best with
  | none =>
    simp only [scanBerth] at h
    split at h
    · exact absurd h (by simp)
    · rename_i hval
      split at h
      · rename_i hfeas
        rw [Bool.and_eq_true] at hfeas
        obtain ⟨hf1, hf2⟩ := hfeas
        injection h with h
        subst h
        exact ⟨hb, Bool.of_not_eq_true hval, rfl, rfl,
          of_decide_eq_true hf1, of_decide_eq_true hf2⟩
      · exact absurd h (by simp)
  | some c0 =>
    obtain ⟨bf, bs, bb⟩ := c0
    simp only [scanBerth] at h
    split at h
    · injection h with h
      subst h
      exact hbest _ rfl
    · rename_i hval
      split at h
      · rename_i hfeas
        rw [Bool.and_eq_true] at hfeas
        obtain ⟨hf1, hf2⟩ := hfeas
        split at h
        · injection h with h
          subst h
          exact ⟨hb, Bool.of_not_eq_true hval, rfl, rfl,
            of_decide_eq_true hf1, of_decide_eq_true hf2⟩
        · injection h with h
          subst h
          exact hbest _ rfl
      · injection h with h
        subst h
        exact hbest _ rfl

theorem bestCandidate_spec {inst : DBAPInstance} {v : Nat} {berthFree : List Int}
    {c : Int × Int × Nat} (h : bestCandidate inst v berthFree = some c) :
    CandidateSpec inst v berthFree c := by
  have key : ∀ (l : List Nat) (acc : Option (Int × Int × Nat)),
      (∀ b ∈ l, b < inst.num_berths) →
      (∀ c0, acc = some c0 → CandidateSpec inst v berthFree c0) →
      ∀ c0, l.foldl (scanBerth inst v berthFree) acc = some c0 →
      CandidateSpec inst v berthFree c0 := by
    intro l
    induction l with
    | nil =>
      intro acc hmem hacc c0 h0
      exact hacc c0 h0
    | cons b bs ih =>
      intro acc hmem hacc c0 h0
      simp only [List.foldl] at h0
      refine ih _ (fun x hx => hmem x (List.mem_cons_of_mem _ hx)) ?_ c0 h0
      intro c1 hc1
      exact scanBerth_spec (hmem b (List.mem_cons_self _ _)) hacc hc1
  exact key (List.range inst.num_berths) none (fun b hbm => List.mem_range.mp hbm)
    (fun c0 h0 => absurd h0 (by simp)) c
    (by unfold bestCandidate at h; exact h)

theorem greedyStep_inv {inst : DBAPInstance} {done : List Nat} {s s' : GreedyState}
    {v : Nat} (hinv : LoopInv inst done s) (hv : v < inst.num_vessels)
    (hnotin : v ∉ done) (h : greedyStep inst s v = some s') :
    LoopInv inst (v :: done) s' := by
  obtain ⟨hlbf, hlb, hls, hle, hfeas, hdisj⟩ := hinv
  unfold greedyStep at h
  cases hbc : bestCandidate inst v s.berth_free_times with
  | none => rw [hbc] at h; exact absurd h (by simp)
  | some c =>
    rw [hbc] at h
    have hspec := bestCandidate_spec hbc
    obtain ⟨fin, st, b⟩ := c
    obtain ⟨hb, hvalid, hst, hfin, hfe, hfd⟩ := hspec
    dsimp only at hb hvalid hst hfin hfe hfd
    injection h with h
    have htime : 0 ≤ (inst.get_processing_time v b).time := by
      simp only [ProcessingTime.is_invalid, decide_eq_false_iff_not, not_lt] at hvalid
      exact hvalid
    have harr_st : inst.arrival_times.getD v 0 ≤ st := by
      rw [hst]; exact le_max_left _ _
    have hbf_st : s.berth_free_times.getD b 0 ≤ st := by
      rw [hst]; exact le_trans (le_max_left _ _) (le_max_right _ _)
    have hst_fin : st ≤ fin := by rw [hfin]; omega
    have hvb : v < s.v_berths.length := by rw [hlb]; exact hv
    have hvs : v < s.v_starts.length := by rw [hls]; exact hv
    have hve : v < s.v_ends.length := by rw [hle]; exact hv
    have hbbf : b < s.berth_free_times.length := by rw [hlbf]; exact hb
    have hbf' : s'.berth_free_times = s.berth_free_times.set b fin := by rw [← h]
    have hvb' : s'.v_berths = s.v_berths.set v b := by rw [← h]
    have hvs' : s'.v_starts = s.v_starts.set v st := by rw [← h]
    have hve' : s'.v_ends = s.v_ends.set v fin := by rw [← h]
    have eBv : (s.v_berths.set v b).getD v 0 = b := getD_set_self hvb _ _
    have eSv : (s.v_starts.set v st).getD v 0 = st := getD_set_self hvs _ _
    have eEv : (s.v_ends.set v fin).getD v 0 = fin := getD_set_self hve _ _
    have eFb : (s.berth_free_times.set b fin).getD b 0 = fin := getD_set_self hbbf _ _
    have eBw : ∀ w, w ≠ v → (s.v_berths.set v b).getD w 0 = s.v_berths.getD w 0 :=
      fun w hw => getD_set_ne (Ne.symm hw) _ _
    have eSw : ∀ w, w ≠ v → (s.v_starts.set v st).getD w 0 = s.v_starts.getD w 0 :=
      fun w hw => getD_set_ne (Ne.symm hw) _ _
    have eEw : ∀ w, w ≠ v → (s.v_ends.set v fin).getD w 0 = s.v_ends.getD w 0 :=
      fun w hw => getD_set_ne (Ne.symm hw) _ _
    have eFw : ∀ b2, b2 ≠ b →
        (s.berth_free_times.set b fin).getD b2 0 = s.berth_free_times.getD b2 0 :=
      fun b2 hb2 => getD_set_ne (Ne.symm hb2) _ _
    refine ⟨by rw [hbf']; simpa using hlbf, by rw [hvb']; simpa using hlb,
      by rw [hvs']; simpa using hls, by rw [hve']; simpa using hle, ?_, ?_⟩
    · intro w hw
      rw [hvb', hvs', hve', hbf']
      rcases List.mem_cons.mp hw with hweq | hwin
      · subst hweq
        rw [eBv, eSv, eEv, eFb]
        exact ⟨hv, hb, harr_st, hst_fin, hfe, hfd, le_refl _⟩
      · have hwv : w ≠ v := fun hc => hnotin (hc ▸ hwin)
        obtain ⟨hwN, hwb, hwarr, hwse, hwwin, hwdl, hwbf⟩ := hfeas w hwin
        rw [eBw w hwv, eSw w hwv, eEw w hwv]
        refine ⟨hwN, hwb, hwarr, hwse, hwwin, hwdl, ?_⟩
        by_cases hwbeq : s.v_berths.getD w 0 = b
        · rw [hwbeq, eFb]
          rw [hwbeq] at hwbf
          exact le_trans hwbf (le_trans hbf_st hst_fin)
        · rw [eFw _ hwbeq]
          exact hwbf
    · intro x hx y hy hxy
      rw [hvb', hvs', hve']
      intro hsame hcon
      rcases List.mem_cons.mp hx with hxeq | hxin <;>
        rcases List.mem_cons.mp hy with hyeq | hyin
      · exact hxy (hxeq.trans hyeq.symm)
      · subst hxeq
        have hyv : y ≠ x := fun hc => hnotin (hc ▸ hyin)
        rw [eBv, eBw y hyv] at hsame
        rw [eSv, eSw y hyv, eEv, eEw y hyv] at hcon
        obtain ⟨_, _, _, _, _, _, hybf⟩ := hfeas y hyin
        rw [← hsame] at hybf
        omega
      · subst hyeq
        have hxv : x ≠ y := fun hc => hnotin (hc ▸ hxin)
        rw [eBv, eBw x hxv] at hsame
        rw [eSv, eSw x hxv, eEv, eEw x hxv] at hcon
        obtain ⟨_, _, _, _, _, _, hxbf⟩ := hfeas x hxin
        rw [hsame] at hxbf
        omega
      · have hxv : x ≠ v := fun hc => hnotin (hc ▸ hxin)
        have hyv : y ≠ v := fun hc => hnotin (hc ▸ hyin)
        rw [eBw x hxv, eBw y hyv] at hsame
        rw [eSw x hxv, eSw y hyv, eEw x hxv, eEw y hyv] at hcon
        exact hdisj x hxin y hyin hxy hsame hcon

theorem LoopInv_mono {inst : DBAPInstance} {d1 d2 : List Nat} {s : GreedyState}
    (hsub : ∀ x, x ∈ d1 → x ∈ d2) (h : LoopInv inst d2 s) : LoopInv inst d1 s := by
  obtain ⟨h1, h2, h3, h4, h5, h6⟩ := h
  exact ⟨h1, h2, h3, h4, fun v hv => h5 v (hsub v hv),
    fun v hv w hw => h6 v (hsub v hv) w (hsub w hw)⟩

theorem greedyLoop_inv {inst : DBAPInstance} :
    ∀ (todo done : List Nat) (s s' : GreedyState),
    LoopInv inst done s →
    (done ++ todo).Nodup →
    (∀ x ∈ todo, x < inst.num_vessels) →
    greedyLoop inst todo s = some s' →
    LoopInv inst (done ++ todo) s' := by
  intro todo
  induction todo with
  | nil =>
    intro done s s' hinv hnd hmem h
    unfold greedyLoop at h
    injection h with h
    subst h
    simpa using hinv
  | cons v rest ih =>
    intro done s s' hinv hnd hmem h
    unfold greedyLoop at h
    cases hstep : greedyStep inst s v with
    | none => rw [hstep] at h; exact absurd h (by simp)
    | some s1 =>
      rw [hstep] at h
      have hnd' : (v :: (done ++ rest)).Nodup := (List.perm_middle.nodup_iff).mp hnd
      obtain ⟨hvnotin, hnd2⟩ := List.nodup_cons.mp hnd'
      have hvnot : v ∉ done := fun hc => hvnotin (List.mem_append.mpr (Or.inl hc))
      have hinv1 : LoopInv inst (v :: done) s1 :=
        greedyStep_inv hinv (hmem v (List.mem_cons_self _ _)) hvnot hstep
      have hihres := ih (v :: done) s1 s' hinv1 hnd'
        (fun x hx => hmem x (List.mem_cons_of_mem _ hx)) h
      refine LoopInv_mono ?_ hihres
      intro x hx
      rcases List.mem_append.mp hx with hx | hx
      · exact List.mem_append.mpr (Or.inl (List.mem_cons_of_mem _ hx))
      · rcases List.mem_cons.mp hx with hx | hx
        · exact List.mem_append.mpr (Or.inl (hx ▸ List.mem_cons_self _ _))
        · exact List.mem_append.mpr (Or.inr hx)

theorem toOption_some {ε α : Type} {x : Except ε α} {a : α}
    (h : x.toOption = some a) : x = Except.ok a := by
  cases x with
  | ok b =>
    simp only [Except.toOption] at h
    injection h with h
    rw [h]
  | error e => exact absurd h (by simp [Except.toOption])

theorem greedy_initInv (inst : DBAPInstance) :
    LoopInv inst []
      { berth_free_times := initBerthFree inst
        v_berths := List.replicate inst.num_vessels 0
        v_starts := List.replicate inst.num_vessels 0
        v_ends := List.replicate inst.num_vessels 0 } := by
  refine ⟨by simp [initBerthFree], by simp, by simp, by simp, ?_, ?_⟩
  · intro v hv; cases hv
  · intro v hv; cases hv

/-- C1: whenever `greedy_heuristic` returns a `Solution`, it is a feasible
schedule: distinct vessels on a common berth occupy non-overlapping
`[start, end)` intervals, and every vessel starts no earlier than its
arrival, ends within its assigned berth's window, and ends by its
deadline. -/
theorem C1_greedy_feasible (inst : DBAPInstance) (sol : Solution)
    (h : greedy_heuristic inst = some sol) :
    sol.vessel_berths.length = inst.num_vessels ∧
    (∀ v, v < inst.num_vessels →
      sol.vessel_berths.getD v 0 < inst.num_berths ∧
      inst.arrival_times.getD v 0 ≤ sol.vessel_start_times.getD v 0 ∧
      sol.vessel_start_times.getD v 0 ≤ sol.vessel_end_times.getD v 0 ∧
      sol.vessel_end_times.getD v 0 ≤
        (inst.get_berth_interval (sol.vessel_berths.getD v 0)).end_exclusive ∧
      sol.vessel_end_times.getD v 0 ≤ inst.latest_departure_times.getD v 0) ∧
    (∀ v w, v < inst.num_vessels → w < inst.num_vessels → v ≠ w →
      sol.vessel_berths.getD v 0 = sol.vessel_berths.getD w 0 →
      ¬(sol.vessel_start_times.getD v 0 < sol.vessel_end_times.getD w 0 ∧
        sol.vessel_start_times.getD w 0 < sol.vessel_end_times.getD v 0)) := by
  unfold greedy_heuristic at h
  split at h
  · rename_i hn
    have hok := toOption_some h
    obtain ⟨hbs, hss, hes, _⟩ := mkSolution_ok hok
    rw [hn, hbs]
    exact ⟨rfl, fun v hv => absurd hv (Nat.not_lt_zero v),
      fun v w hv hw hne hsame => absurd hv (Nat.not_lt_zero v)⟩
  · rename_i hn
    cases hloop : greedyLoop inst (sortedVessels inst)
        { berth_free_times := initBerthFree inst
          v_berths := List.replicate inst.num_vessels 0
          v_starts := List.replicate inst.num_vessels 0
          v_ends := List.replicate inst.num_vessels 0 } with
    | none => rw [hloop] at h; exact absurd h (by simp)
    | some s1 =>
      rw [hloop] at h
      have hok := toOption_some h
      obtain ⟨hbs, hss, hes, _⟩ := mkSolution_ok hok
      have hinv := greedyLoop_inv (sortedVessels inst) [] _ s1 (greedy_initInv inst)
        (by simpa using ((sortedVessels_perm inst).nodup_iff).mpr (List.nodup_range _))
        (fun x hx => List.mem_range.mp ((sortedVessels_perm inst).mem_iff.mp hx))
        hloop
      have hmemv : ∀ v, v < inst.num_vessels → v ∈ (([] : List Nat) ++ sortedVessels inst) := by
        intro v hv
        simp only [List.nil_append]
        exact (sortedVessels_perm inst).mem_iff.mpr (List.mem_range.mpr hv)
      obtain ⟨_, hlb1, _, _, hfeas, hdisj⟩ := hinv
      rw [hbs, hss, hes]
      refine ⟨hlb1, ?_, ?_⟩
      · intro v hv
        obtain ⟨_, p1, p2, p3, p4, p5, _⟩ := hfeas v (hmemv v hv)
        exact ⟨p1, p2, p3, p4, p5⟩
      · intro v w hv hw hne hsame
        exact hdisj v (hmemv v hv) w (hmemv w hw) hne hsame

/-- Witness for C1: scenario A, where the heuristic returns
`berth 0, start 0, end 10`. -/
theorem C1_greedy_feasible_witness :
    greedy_heuristic instA = some solA ∧
    instA.arrival_times.getD 0 0 ≤ solA.vessel_start_times.getD 0 0 ∧
    solA.vessel_end_times.getD 0 0 ≤ instA.latest_departure_times.getD 0 0 := by
  have h : greedy_heuristic instA = some solA := rfl
  have hc := C1_greedy_feasible instA solA h
  exact ⟨h, (hc.2.1 0 (by decide)).2.1, (hc.2.1 0 (by decide)).2.2.2.2⟩
